import Mathlib

/-!
Shallow embedding of the time-tracker application in `src/app.py` (a
single Streamlit script) together with proofs about the properties its
specification states.

Modelling conventions:
* Python floats carrying seconds (timestamps, durations, accumulated
  daily time) are modelled as `ℚ`.
* Day keys are `"YYYY-MM-DD"` strings of the reference timezone.
  `strftime` / `strptime` is an order-preserving bijection between those
  strings (under the lexicographic order used by Python `sorted`) and
  calendar days, so a day key is modelled as the proleptic-Gregorian day
  ordinal, an integer, and `current_date - timedelta(days=i)` becomes
  integer subtraction.
* `st.session_state` is the `SessionState` structure, the persisted JSON
  dict is the `Store` structure (`daily_time` as an insertion-ordered
  association list, matching a Python dict), and each script fragment
  that mutates them (the tick block, the Pomodoro boundary block, the
  Start/Stop button handlers, the sidebar setting handlers) is a
  function on `App`.
-/

namespace TimeTracker

/-- A persisted session record, an element of `data["sessions"]`
(lines 354-361 of `app.py`). -/
structure Session where
  date : ℤ
  start_time : ℚ
  duration : ℚ
  category : String
  note : String
  pomodoro : Bool
deriving DecidableEq

/-- The persisted store `data`, as held in the JSON file
(`daily_time`, `sessions`, `goals`, `categories`, `settings`). -/
structure Store where
  daily_time : List (ℤ × ℚ)
  sessions : List Session
  goals_daily : ℚ
  goals_weekly : ℚ
  categories : List String
  theme : String
  pom_work : ℕ
  pom_break : ℕ
deriving DecidableEq

/-- The runtime `st.session_state` (lines 194-211). -/
structure SessionState where
  start_time : Option ℚ
  timer_running : Bool
  live_elapsed : ℚ
  current_category : String
  session_note : String
  pomodoro_mode : Bool
  pomodoro_work_time : ℚ
  pomodoro_break_time : ℚ
  is_break : Bool
deriving DecidableEq

/-- Full application state: persisted store plus runtime session state. -/
structure App where
  data : Store
  ss : SessionState
deriving DecidableEq

/-- Python dict membership `k in d` for the `daily_time` dict. -/
def hasKey (k : ℤ) (l : List (ℤ × ℚ)) : Prop :=
  k ∈ l.map Prod.fst

instance (k : ℤ) (l : List (ℤ × ℚ)) : Decidable (hasKey k l) :=
  inferInstanceAs (Decidable (k ∈ l.map Prod.fst))

/-- Python dict lookup `d[k]`. The program only reads keys it knows to be
present; the default `0` is never observed at those call sites. -/
def lookupVal (k : ℤ) (l : List (ℤ × ℚ)) : ℚ :=
  (l.lookup k).getD 0

/-- `data["daily_time"][k] += v`. Python raises `KeyError` when `k` is
absent; the program performs this only after the startup block has
inserted the key, and the model leaves the list unchanged in that case. -/
def bumpVal (k : ℤ) (v : ℚ) (l : List (ℤ × ℚ)) : List (ℤ × ℚ) :=
  l.map fun p => if p.1 = k then (p.1, p.2 + v) else p

/-- Lines 50-52: at startup, insert today's key with value `0.0` into
`daily_time` when it is absent (dict insertion appends at the end). -/
def startupDaily (today : ℤ) (l : List (ℤ × ℚ)) : List (ℤ × ℚ) :=
  if hasKey today l then l else l ++ [(today, 0)]

/-- Result of reading the persisted file: absent, present but not
well-formed JSON, or present and well-formed with content `s`. -/
inductive FileState where
  | absent : FileState
  | malformed : FileState
  | wellFormed : Store → FileState

/-- The exception `json.load` raises on a malformed file. -/
inductive LoadError where
  | jsonDecodeError : LoadError
deriving DecidableEq

/-- The documented default store (lines 30-36). -/
def defaultStore : Store :=
  { daily_time := []
    sessions := []
    goals_daily := 8 * 3600
    goals_weekly := 40 * 3600
    categories := ["Work", "Study", "Personal", "Exercise"]
    theme := "dark"
    pom_work := 25
    pom_break := 5 }

/-- Lines 25-36: `load_data`. When the file exists, `json.load(f)` is
called with no exception handler, so a malformed file raises
`json.JSONDecodeError`, modelled as `Except.error`; when the file is
absent the documented defaults are returned. -/
def load_data (fs : FileState) : Except LoadError Store :=
  match fs with
  | .absent => .ok defaultStore
  | .malformed => .error .jsonDecodeError
  | .wellFormed s => .ok s

/-- Lines 292-295: while the timer is running, accrue the wall-clock
delta since `start_time` into `live_elapsed` and reset `start_time` to
`now`. Python `st.session_state.start_time or now` evaluates to `now`
when `start_time` is `None` or `0.0` (falsy), else to `start_time`. -/
def tick (now : ℚ) (a : App) : App :=
  if a.ss.timer_running then
    let base : ℚ :=
      match a.ss.start_time with
      | none => now
      | some t => if t = 0 then now else t
    { a with ss := { a.ss with
        live_elapsed := a.ss.live_elapsed + (now - base)
        start_time := some now } }
  else a

/-- Lines 298-312: the Pomodoro boundary check, run right after the tick
block on each script pass. -/
def boundaryCheck (now : ℚ) (a : App) : App :=
  if a.ss.pomodoro_mode ∧ a.ss.timer_running then
    if ¬ a.ss.is_break then
      if a.ss.pomodoro_work_time - a.ss.live_elapsed ≤ 0 then
        { a with ss := { a.ss with
            is_break := true
            live_elapsed := 0
            start_time := some now } }
      else a
    else
      if a.ss.pomodoro_break_time - a.ss.live_elapsed ≤ 0 then
        { a with ss := { a.ss with
            is_break := false
            live_elapsed := 0
            start_time := some now } }
      else a
  else a

/-- Lines 345-348: the Start button handler. -/
def startHandler (now : ℚ) (a : App) : App :=
  { a with ss := { a.ss with
      start_time := some now
      timer_running := true
      live_elapsed := 0 } }

/-- Lines 350-372: the Stop button handler. When `live_elapsed > 0` it
appends a session record, adds the elapsed time to today's daily total
unless on break, saves, and clears `live_elapsed` and the note; in every
case it stops the timer, clears `start_time` and leaves break mode. -/
def stopHandler (now : ℚ) (today : ℤ) (a : App) : App :=
  let s0 := { a.ss with timer_running := false }
  if s0.live_elapsed > 0 then
    let sess : Session :=
      { date := today
        start_time := now
        duration := s0.live_elapsed
        category := s0.current_category
        note := s0.session_note
        pomodoro := s0.pomodoro_mode }
    let store1 := { a.data with sessions := a.data.sessions ++ [sess] }
    let store2 :=
      if ¬ s0.is_break then
        { store1 with daily_time := bumpVal today s0.live_elapsed store1.daily_time }
      else store1
    { data := store2
      ss := { s0 with
        live_elapsed := 0
        session_note := ""
        start_time := none
        is_break := false } }
  else
    { a with ss := { s0 with start_time := none, is_break := false } }

/-- Lines 220-225: the theme selector writes the store only on change. -/
def themeHandler (t : String) (a : App) : App :=
  if t ≠ a.data.theme then
    { a with data := { a.data with theme := t } }
  else a

/-- Lines 241-249: the Pomodoro sliders update settings and the derived
session-state second counts on change. -/
def pomSettingsHandler (workMin breakMin : ℕ) (a : App) : App :=
  if workMin ≠ a.data.pom_work ∨ breakMin ≠ a.data.pom_break then
    { data := { a.data with pom_work := workMin, pom_break := breakMin }
      ss := { a.ss with
        pomodoro_work_time := (workMin : ℚ) * 60
        pomodoro_break_time := (breakMin : ℚ) * 60 } }
  else a

/-- Lines 253-259: the goal sliders, compared against the stored goals
floor-divided by 3600 (Python `//`), update the store on change. -/
def goalsHandler (dailyHours weeklyHours : ℤ) (a : App) : App :=
  if dailyHours ≠ ⌊a.data.goals_daily / 3600⌋ ∨ weeklyHours ≠ ⌊a.data.goals_weekly / 3600⌋ then
    { a with data := { a.data with
        goals_daily := (dailyHours : ℚ) * 3600
        goals_weekly := (weeklyHours : ℚ) * 3600 } }
  else a

/-- Lines 448-453: add a category; the button requires a non-empty text
and the category must be new. -/
def addCategoryHandler (c : String) (a : App) : App :=
  if c ≠ "" ∧ c ∉ a.data.categories then
    { a with data := { a.data with categories := a.data.categories ++ [c] } }
  else a

/-- Lines 456-462: remove a category, only while more than one remains
(Python `list.remove` deletes the first occurrence). -/
def removeCategoryHandler (c : String) (a : App) : App :=
  if 1 < a.data.categories.length then
    { a with data := { a.data with categories := a.data.categories.erase c } }
  else a

/-- The operations of the script that can touch application state, for
stating store-wide invariants uniformly. -/
inductive Op where
  | startup (today : ℤ)
  | startBtn (now : ℚ)
  | tickPass (now : ℚ)
  | boundary (now : ℚ)
  | stopBtn (now : ℚ) (today : ℤ)
  | theme (t : String)
  | pomSettings (workMin breakMin : ℕ)
  | goals (dailyHours weeklyHours : ℤ)
  | addCategory (c : String)
  | removeCategory (c : String)

/-- Dispatch an operation to its handler. -/
def applyOp : Op → App → App
  | .startup today, a =>
    { a with data := { a.data with daily_time := startupDaily today a.data.daily_time } }
  | .startBtn now, a => startHandler now a
  | .tickPass now, a => tick now a
  | .boundary now, a => boundaryCheck now a
  | .stopBtn now today, a => stopHandler now today a
  | .theme t, a => themeHandler t a
  | .pomSettings w b, a => pomSettingsHandler w b a
  | .goals d w, a => goalsHandler d w a
  | .addCategory c, a => addCategoryHandler c a
  | .removeCategory c, a => removeCategoryHandler c a

/-- Lines 157-174, the loop body of `get_streak`: walk the sorted day
keys from the largest downwards (`dates[-(i+1)]`), counting while the
`i`-th key from the end has a positive value and equals `today - i`,
and stopping at the first failure of either test. -/
def streakLoop (daily : List (ℤ × ℚ)) (today : ℤ) : List ℤ → ℕ → ℕ
  | [], _ => 0
  | d :: rest, i =>
    if 0 < lookupVal d daily then
      if d = today - (i : ℤ) then streakLoop daily today rest (i + 1) + 1 else 0
    else 0

/-- Lines 157-174: `get_streak`. `sorted` over `YYYY-MM-DD` strings is
modelled by sorting the day ordinals. -/
def get_streak (daily : List (ℤ × ℚ)) (today : ℤ) : ℕ :=
  let dates := (daily.map Prod.fst).insertionSort (· ≤ ·)
  if dates = [] then 0 else streakLoop daily today dates.reverse 0

/-- The streak as the specification words it: count the consecutive days
`today, today - 1, today - 2, …` whose entry is present in the map with
a positive value, stopping at the first missing or non-positive day.
The fuel bounds the walk; `daily.length` is enough because the counted
days are distinct keys of `daily`. -/
def claimStreakAux (daily : List (ℤ × ℚ)) : ℤ → ℕ → ℕ
  | _, 0 => 0
  | t, fuel + 1 =>
    if hasKey t daily ∧ 0 < lookupVal t daily then
      claimStreakAux daily (t - 1) fuel + 1
    else 0

/-- The specification-side streak count. -/
def claimStreak (daily : List (ℤ × ℚ)) (today : ℤ) : ℕ :=
  claimStreakAux daily today daily.length

/-- A reference-timezone wall-clock datetime, the components of a Python
`datetime` (the fixed IST offset cancels in every subtraction the
program performs, so it is not modelled). -/
structure DateTime where
  year : ℕ
  month : ℕ
  day : ℕ
  hour : ℕ
  minute : ℕ
  second : ℕ
  micro : ℕ
deriving DecidableEq

/-- Python `calendar` leap-year rule, as used by `datetime`. -/
def isLeap (y : ℕ) : Bool :=
  (y % 4 == 0 && y % 100 != 0) || (y % 400 == 0)

/-- Days in a month of the proleptic Gregorian calendar. -/
def daysInMonth (y m : ℕ) : ℕ :=
  if m = 2 then (if isLeap y then 29 else 28)
  else if m = 4 ∨ m = 6 ∨ m = 9 ∨ m = 11 then 30 else 31

/-- Days in year `y` before the first of month `m`. -/
def daysBeforeMonth (y m : ℕ) : ℕ :=
  ((List.range (m - 1)).map fun k => daysInMonth y (k + 1)).sum

/-- Days before January 1 of year `y` in the proleptic Gregorian
calendar (`datetime._days_before_year`). -/
def daysBeforeYear (y : ℕ) : ℤ :=
  365 * ((y : ℤ) - 1) + ((y - 1) / 4 : ℕ) - ((y - 1) / 100 : ℕ) + ((y - 1) / 400 : ℕ)

/-- Proleptic-Gregorian ordinal of the day `y-m-d`, the linearisation
`datetime` uses for subtraction. -/
def toOrdinal (y m d : ℕ) : ℤ :=
  daysBeforeYear y + daysBeforeMonth y m + d

/-- A datetime as a count of microseconds on the proleptic-Gregorian
time line; differences of these are exactly Python `datetime`
subtraction (both operands carry the same fixed-offset timezone). -/
def toMicro (dt : DateTime) : ℤ :=
  (((toOrdinal dt.year dt.month dt.day * 24 + dt.hour) * 60 + dt.minute) * 60
      + dt.second) * 1000000 + dt.micro

/-- Lines 136-147: `get_remaining_month`. `next_month` is the first
instant of the next month (rolling December into January of the next
year), `end` is `next_month` minus one microsecond, and the result is
`max(0, int((end - now).total_seconds()))`. For the month-scale
magnitudes involved, `int(total_seconds())` equals the floor of the
microsecond difference divided by `10 ^ 6` whenever that difference is
non-negative, and with the outer `max 0` the truncating and flooring
readings agree on negative differences as well, both yielding `0`. -/
def get_remaining_month (now : DateTime) : ℤ :=
  let next_month : DateTime :=
    if now.month = 12 then ⟨now.year + 1, 1, 1, 0, 0, 0, 0⟩
    else ⟨now.year, now.month + 1, 1, 0, 0, 0, 0⟩
  let endInstant := toMicro next_month - 1
  max 0 ((endInstant - toMicro now) / 1000000)

/-- The last instant of `now`'s month, as the specification words it:
the last day of the current month at `23:59:59.999999`. -/
def monthEnd (now : DateTime) : DateTime :=
  ⟨now.year, now.month, daysInMonth now.year now.month, 23, 59, 59, 999999⟩

/-- The specification-side remaining-month count: the non-negative whole
seconds from `now` to the last instant of the current month. -/
def specRemainingMonth (now : DateTime) : ℤ :=
  max 0 ((toMicro (monthEnd now) - toMicro now) / 1000000)

/-- The session state as initialised on lines 194-211 under the default
settings. -/
def initSS : SessionState :=
  { start_time := none
    timer_running := false
    live_elapsed := 0
    current_category := "Work"
    session_note := ""
    pomodoro_mode := false
    pomodoro_work_time := 25 * 60
    pomodoro_break_time := 5 * 60
    is_break := false }

/-- A concrete state with the timer running: started at wall-clock 100
with 50 seconds already accrued. -/
def runningApp : App :=
  { data := defaultStore
    ss := { initSS with timer_running := true, start_time := some 100, live_elapsed := 50 } }

/-- A concrete state stopped during a Pomodoro break with 30 seconds of
break time accrued. -/
def breakApp : App :=
  { data := defaultStore
    ss := { initSS with
              timer_running := true
              start_time := some 100
              live_elapsed := 30
              is_break := true
              pomodoro_mode := true } }

/-- A concrete idle state. -/
def idleApp : App :=
  { data := defaultStore, ss := initSS }

/-- A concrete running state carrying a non-empty session note. -/
def noteApp : App :=
  { data := defaultStore
    ss := { initSS with
              timer_running := true
              start_time := some 100
              live_elapsed := 30
              session_note := "draft" } }

/-- A concrete running Pomodoro work phase that has reached its
25-minute threshold (1501 seconds accrued against a 1500 second
threshold). -/
def pomoApp : App :=
  { data := defaultStore
    ss := { initSS with
              pomodoro_mode := true
              timer_running := true
              start_time := some 100
              live_elapsed := 1501 } }

/-- A concrete running Pomodoro break phase past its 5-minute
threshold. -/
def pomoBreakApp : App :=
  { data := defaultStore
    ss := { initSS with
              pomodoro_mode := true
              timer_running := true
              start_time := some 100
              live_elapsed := 302
              is_break := true } }

/-- C1: on a tick whose wall clock (90) reads earlier than the stored
`start_time` (100), the tick block adds the negative delta unclamped:
`live_elapsed` drops from 50 to 40, contradicting the specified clamping
of negative deltas to zero. -/
theorem tick_negative_delta_decreases_elapsed :
    (tick 90 runningApp).ss.live_elapsed = 40 ∧
      (tick 90 runningApp).ss.live_elapsed < runningApp.ss.live_elapsed := by
  constructor <;> norm_num [tick, runningApp, initSS]

/-- C2, counterexample: with the timer already running and 50 seconds
accrued, the Start handler does not leave `live_elapsed` unchanged. -/
theorem start_while_running_discards_elapsed :
    runningApp.ss.timer_running = true ∧
      (startHandler 200 runningApp).ss.live_elapsed ≠ runningApp.ss.live_elapsed := by
  constructor
  · rfl
  · norm_num [startHandler, runningApp, initSS]

/-- C2, amended: calling Start while the timer is already running resets
`startInstant` to `now()` and also resets `liveElapsedSeconds` to 0,
discarding the accrued elapsed time; the persisted store is untouched. -/
theorem start_while_running_restarts (a : App) (now : ℚ)
    (h : a.ss.timer_running = true) :
    (startHandler now a).ss.start_time = some now ∧
      (startHandler now a).ss.timer_running = true ∧
      (startHandler now a).ss.live_elapsed = 0 ∧
      (startHandler now a).data = a.data := by
  simp [startHandler]

/-- Witness for the amended C2 at the concrete running state. -/
theorem start_while_running_restarts_witness :
    runningApp.ss.timer_running = true ∧
      ((startHandler 200 runningApp).ss.start_time = some 200 ∧
        (startHandler 200 runningApp).ss.timer_running = true ∧
        (startHandler 200 runningApp).ss.live_elapsed = 0 ∧
        (startHandler 200 runningApp).data = runningApp.data) :=
  ⟨rfl, start_while_running_restarts runningApp 200 rfl⟩

/-- C3: stopping with positive elapsed time while on break appends
exactly one session record carrying the elapsed duration, and leaves the
daily totals untouched. -/
theorem stop_on_break_logs_session_daily_unchanged (a : App) (now : ℚ) (today : ℤ)
    (hpos : 0 < a.ss.live_elapsed) (hbrk : a.ss.is_break = true) :
    (stopHandler now today a).data.sessions =
        a.data.sessions ++
          [{ date := today, start_time := now, duration := a.ss.live_elapsed,
             category := a.ss.current_category, note := a.ss.session_note,
             pomodoro := a.ss.pomodoro_mode }] ∧
      (stopHandler now today a).data.daily_time = a.data.daily_time := by
  simp [stopHandler, hpos, hbrk]

/-- Witness for C3 at the concrete break state. -/
theorem stop_on_break_logs_session_daily_unchanged_witness :
    0 < breakApp.ss.live_elapsed ∧ breakApp.ss.is_break = true ∧
      ((stopHandler 500 0 breakApp).data.sessions =
          breakApp.data.sessions ++
            [{ date := 0, start_time := 500, duration := breakApp.ss.live_elapsed,
               category := breakApp.ss.current_category, note := breakApp.ss.session_note,
               pomodoro := breakApp.ss.pomodoro_mode }] ∧
        (stopHandler 500 0 breakApp).data.daily_time = breakApp.data.daily_time) :=
  ⟨by norm_num [breakApp, initSS], rfl,
    stop_on_break_logs_session_daily_unchanged breakApp 500 0
      (by norm_num [breakApp, initSS]) rfl⟩

/-- C4: when the persisted file exists but is malformed, `load_data`
propagates the `json.JSONDecodeError` instead of falling back to the
default store — there is no exception handler around `json.load`. -/
theorem load_malformed_file_raises :
    load_data .malformed = .error .jsonDecodeError ∧
      ∀ s : Store, load_data .malformed ≠ .ok s :=
  ⟨rfl, fun _ h => by cases h⟩

/-- C6: when Pomodoro mode is on and the timer is running, reaching the
work threshold commits nothing to the store, flips to break, zeroes
`live_elapsed` (discarding the overflow) and resets `start_time` to
`now`; symmetrically for the break threshold. -/
theorem pomodoro_boundary_hard_cutover (a : App) (now : ℚ)
    (hp : a.ss.pomodoro_mode = true) (hr : a.ss.timer_running = true) :
    (a.ss.is_break = false → a.ss.pomodoro_work_time ≤ a.ss.live_elapsed →
      (boundaryCheck now a).data = a.data ∧
        (boundaryCheck now a).ss.is_break = true ∧
        (boundaryCheck now a).ss.live_elapsed = 0 ∧
        (boundaryCheck now a).ss.start_time = some now) ∧
    (a.ss.is_break = true → a.ss.pomodoro_break_time ≤ a.ss.live_elapsed →
      (boundaryCheck now a).data = a.data ∧
        (boundaryCheck now a).ss.is_break = false ∧
        (boundaryCheck now a).ss.live_elapsed = 0 ∧
        (boundaryCheck now a).ss.start_time = some now) := by
  constructor
  · intro hb hw
    have hcond : a.ss.pomodoro_work_time - a.ss.live_elapsed ≤ 0 := by linarith
    simp [boundaryCheck, hp, hr, hb, hcond]
  · intro hb hw
    have hcond : a.ss.pomodoro_break_time - a.ss.live_elapsed ≤ 0 := by linarith
    simp [boundaryCheck, hp, hr, hb, hcond]

/-- Witness for C6 at the concrete work phase that reached its
threshold. -/
theorem pomodoro_boundary_hard_cutover_witness :
    pomoApp.ss.pomodoro_mode = true ∧ pomoApp.ss.timer_running = true ∧
      pomoApp.ss.is_break = false ∧
      pomoApp.ss.pomodoro_work_time ≤ pomoApp.ss.live_elapsed ∧
      ((boundaryCheck 999 pomoApp).data = pomoApp.data ∧
        (boundaryCheck 999 pomoApp).ss.is_break = true ∧
        (boundaryCheck 999 pomoApp).ss.live_elapsed = 0 ∧
        (boundaryCheck 999 pomoApp).ss.start_time = some 999) :=
  ⟨rfl, rfl, rfl, by norm_num [pomoApp, initSS],
    (pomodoro_boundary_hard_cutover pomoApp 999 rfl rfl).1 rfl
      (by norm_num [pomoApp, initSS])⟩

/-- C7: stopping while idle (zero live elapsed time) appends no session
and leaves the daily totals unchanged. -/
theorem stop_when_idle_noop (a : App) (now : ℚ) (today : ℤ)
    (h : a.ss.live_elapsed = 0) :
    (stopHandler now today a).data.sessions = a.data.sessions ∧
      (stopHandler now today a).data.daily_time = a.data.daily_time := by
  simp [stopHandler, h]

/-- Witness for C7 at the concrete idle state. -/
theorem stop_when_idle_noop_witness :
    idleApp.ss.live_elapsed = 0 ∧
      ((stopHandler 5 0 idleApp).data.sessions = idleApp.data.sessions ∧
        (stopHandler 5 0 idleApp).data.daily_time = idleApp.data.daily_time) :=
  ⟨rfl, stop_when_idle_noop idleApp 5 0 rfl⟩

/-- C10: a committing Stop records the current note in the appended
session and then clears the note to the empty string, while a Stop with
zero elapsed time leaves the note unchanged. -/
theorem stop_note_reset (a : App) (now : ℚ) (today : ℤ) :
    (0 < a.ss.live_elapsed →
      (stopHandler now today a).ss.session_note = "" ∧
        (stopHandler now today a).data.sessions =
          a.data.sessions ++
            [{ date := today, start_time := now, duration := a.ss.live_elapsed,
               category := a.ss.current_category, note := a.ss.session_note,
               pomodoro := a.ss.pomodoro_mode }]) ∧
    (a.ss.live_elapsed = 0 →
      (stopHandler now today a).ss.session_note = a.ss.session_note) := by
  constructor
  · intro h
    constructor
    · simp [stopHandler, h]
    · simp [stopHandler, h]
      split <;> simp
  · intro h
    simp [stopHandler, h]

/-- Witness for C10 at the concrete running state with a non-empty
note. -/
theorem stop_note_reset_witness :
    0 < noteApp.ss.live_elapsed ∧
      ((stopHandler 7 3 noteApp).ss.session_note = "" ∧
        (stopHandler 7 3 noteApp).data.sessions =
          noteApp.data.sessions ++
            [{ date := 3, start_time := 7, duration := noteApp.ss.live_elapsed,
               category := noteApp.ss.current_category, note := noteApp.ss.session_note,
               pomodoro := noteApp.ss.pomodoro_mode }]) :=
  ⟨by norm_num [noteApp, initSS],
    (stop_note_reset noteApp 7 3).1 (by norm_num [noteApp, initSS])⟩

/-- `lookup` after `bumpVal`: the entry at key `t` gains `v`, every
other entry is unchanged. -/
theorem lookup_bumpVal (k t : ℤ) (v : ℚ) (l : List (ℤ × ℚ)) :
    (bumpVal t v l).lookup k = (l.lookup k).map fun x => if k = t then x + v else x := by
  induction l with
  | nil => simp [bumpVal]
  | cons p rest ih =>
    obtain ⟨k1, v1⟩ := p
    by_cases hkk : k = k1
    · subst hkk
      by_cases hk1 : k = t
      · subst hk1
        simp [bumpVal, List.lookup_cons]
      · simp [bumpVal, List.lookup_cons, hk1, Ne.symm hk1]
    · have hb : (k == k1) = false := by simpa using hkk
      by_cases hk1 : k1 = t
      · subst hk1
        simp only [bumpVal, List.map_cons] at ih ⊢
        simp only [if_true]
        simp only [List.lookup_cons, hb] at ih ⊢
        exact ih
      · simp only [bumpVal, List.map_cons] at ih ⊢
        rw [if_neg hk1]
        simp only [List.lookup_cons, hb] at ih ⊢
        exact ih

/-- A successful association-list lookup survives appending entries on
the right. -/
theorem lookup_append_some (k : ℤ) (l l2 : List (ℤ × ℚ)) (v : ℚ)
    (h : l.lookup k = some v) : (l ++ l2).lookup k = some v := by
  induction l with
  | nil => simp at h
  | cons p rest ih =>
    obtain ⟨k1, v1⟩ := p
    by_cases hkk : k = k1
    · have hb : (k == k1) = true := by simpa using hkk
      simp only [List.cons_append, List.lookup_cons, hb] at h ⊢
      exact h
    · have hb : (k == k1) = false := by simpa using hkk
      simp only [List.cons_append, List.lookup_cons, hb] at h ⊢
      exact ih h

/-- The tick block never writes the persisted store. -/
theorem tick_data_eq (now : ℚ) (a : App) : (tick now a).data = a.data := by
  unfold tick; split <;> rfl

/-- The Pomodoro boundary block never writes the persisted store. -/
theorem boundaryCheck_data_eq (now : ℚ) (a : App) :
    (boundaryCheck now a).data = a.data := by
  unfold boundaryCheck; split_ifs <;> rfl

/-- C9 (amended): across every operation of the program no existing
`daily_time` entry ever decreases, and the only operations that write
`daily_time` at all are the startup initialisation (which inserts a
zero entry for the current day) and the Stop commit (which adds the
positive elapsed time to today's entry). -/
theorem daily_time_monotone :
    (∀ (op : Op) (a : App) (k : ℤ) (v : ℚ),
        a.data.daily_time.lookup k = some v →
        ∃ w, (applyOp op a).data.daily_time.lookup k = some w ∧ v ≤ w) ∧
    (∀ (a : App) (now : ℚ),
        (applyOp (.startBtn now) a).data.daily_time = a.data.daily_time) ∧
    (∀ (a : App) (now : ℚ),
        (applyOp (.tickPass now) a).data.daily_time = a.data.daily_time) ∧
    (∀ (a : App) (now : ℚ),
        (applyOp (.boundary now) a).data.daily_time = a.data.daily_time) ∧
    (∀ (a : App) (t : String),
        (applyOp (.theme t) a).data.daily_time = a.data.daily_time) ∧
    (∀ (a : App) (w b : ℕ),
        (applyOp (.pomSettings w b) a).data.daily_time = a.data.daily_time) ∧
    (∀ (a : App) (d w : ℤ),
        (applyOp (.goals d w) a).data.daily_time = a.data.daily_time) ∧
    (∀ (a : App) (c : String),
        (applyOp (.addCategory c) a).data.daily_time = a.data.daily_time) ∧
    (∀ (a : App) (c : String),
        (applyOp (.removeCategory c) a).data.daily_time = a.data.daily_time) := by
  refine ⟨?_, ?_, ?_, ?_, ?_, ?_, ?_, ?_, ?_⟩
  · intro op a k v h
    cases op with
    | startup today =>
      by_cases hk : hasKey today a.data.daily_time
      · exact ⟨v, by simpa [applyOp, startupDaily, hk] using h, le_rfl⟩
      · refine ⟨v, ?_, le_rfl⟩
        simp only [applyOp, startupDaily, hk, if_false]
        exact lookup_append_some k _ _ v h
    | startBtn now => exact ⟨v, by simpa [applyOp, startHandler] using h, le_rfl⟩
    | tickPass now => exact ⟨v, by simpa [applyOp, tick_data_eq] using h, le_rfl⟩
    | boundary now => exact ⟨v, by simpa [applyOp, boundaryCheck_data_eq] using h, le_rfl⟩
    | stopBtn now today =>
      by_cases hl : a.ss.live_elapsed > 0
      · by_cases hb : a.ss.is_break
        · exact ⟨v, by simpa [applyOp, stopHandler, hl, hb] using h, le_rfl⟩
        · refine ⟨if k = today then v + a.ss.live_elapsed else v, ?_, ?_⟩
          · simp [applyOp, stopHandler, hl, hb, lookup_bumpVal, h]
          · split_ifs
            · linarith
            · exact le_rfl
      · exact ⟨v, by simpa [applyOp, stopHandler, hl] using h, le_rfl⟩
    | theme t =>
      refine ⟨v, ?_, le_rfl⟩
      simp only [applyOp]
      unfold themeHandler
      split_ifs <;> simpa using h
    | pomSettings w b =>
      refine ⟨v, ?_, le_rfl⟩
      simp only [applyOp]
      unfold pomSettingsHandler
      split_ifs <;> simpa using h
    | goals d w =>
      refine ⟨v, ?_, le_rfl⟩
      simp only [applyOp]
      unfold goalsHandler
      split_ifs <;> simpa using h
    | addCategory c =>
      refine ⟨v, ?_, le_rfl⟩
      simp only [applyOp]
      unfold addCategoryHandler
      split_ifs <;> simpa using h
    | removeCategory c =>
      refine ⟨v, ?_, le_rfl⟩
      simp only [applyOp]
      unfold removeCategoryHandler
      split_ifs <;> simpa using h
  · intro a now; rfl
  · intro a now; exact congrArg Store.daily_time (tick_data_eq now a)
  · intro a now; exact congrArg Store.daily_time (boundaryCheck_data_eq now a)
  · intro a t; simp only [applyOp]; unfold themeHandler; split_ifs <;> rfl
  · intro a w b; simp only [applyOp]; unfold pomSettingsHandler; split_ifs <;> rfl
  · intro a d w; simp only [applyOp]; unfold goalsHandler; split_ifs <;> rfl
  · intro a c; simp only [applyOp]; unfold addCategoryHandler; split_ifs <;> rfl
  · intro a c; simp only [applyOp]; unfold removeCategoryHandler; split_ifs <;> rfl

/-- A concrete state for the C9 witness: today's entry holds 5 seconds
and the timer has 10 seconds accrued. -/
def dailyApp : App :=
  { data := { defaultStore with daily_time := [(0, 5)] }
    ss := { initSS with timer_running := true, live_elapsed := 10, start_time := some 90 } }

/-- Witness for the amended C9: committing a 10-second stop on top of a
5-second daily entry yields an entry of at least 5. -/
theorem daily_time_monotone_witness :
    dailyApp.data.daily_time.lookup 0 = some 5 ∧
      ∃ w, (applyOp (.stopBtn 100 0) dailyApp).data.daily_time.lookup 0 = some w ∧
        (5 : ℚ) ≤ w :=
  ⟨rfl, daily_time_monotone.1 (.stopBtn 100 0) dailyApp 0 5 rfl⟩

/-- C9, counterexample: the startup block itself changes `daily_time`
(inserting a zero entry for the current day into an empty map), so the
mapping is not mutated only by the session-commit path. -/
theorem startup_mutates_daily_time :
    startupDaily 0 ([] : List (ℤ × ℚ)) = [(0, 0)] ∧
      startupDaily 0 ([] : List (ℤ × ℚ)) ≠ ([] : List (ℤ × ℚ)) := by
  decide

/-- The loop of `get_streak` computes the specification count: when the
iteration list `R` is strictly descending and contains exactly the keys
of `daily` that are at most `today - i`, walking `R` with running index
`i` counts exactly the consecutive present-and-positive days down from
`today - i`. -/
theorem streakLoop_eq_claimAux (daily : List (ℤ × ℚ)) (today : ℤ) :
    ∀ (R : List ℤ) (i fuel : ℕ),
      R.Pairwise (fun a b => b < a) →
      (∀ x : ℤ, x ∈ R ↔ (hasKey x daily ∧ x ≤ today - (i : ℤ))) →
      R.length ≤ fuel →
      streakLoop daily today R i = claimStreakAux daily (today - (i : ℤ)) fuel := by
  intro R
  induction R with
  | nil =>
    intro i fuel _ hmem _
    cases fuel with
    | zero => rfl
    | succ f =>
      simp only [streakLoop, claimStreakAux]
      rw [if_neg]
      rintro ⟨hk, _⟩
      exact (List.not_mem_nil _) ((hmem (today - (i : ℤ))).2 ⟨hk, le_refl _⟩)
  | cons d rest ih =>
    intro i fuel hpw hmem hlen
    cases fuel with
    | zero => simp at hlen
    | succ f =>
      have hd := (hmem d).1 (List.mem_cons_self d rest)
      have hrest_lt : ∀ x ∈ rest, x < d := (List.pairwise_cons.1 hpw).1
      by_cases hv : 0 < lookupVal d daily
      · by_cases hdt : d = today - (i : ℤ)
        · have hcond : hasKey (today - (i : ℤ)) daily ∧
              0 < lookupVal (today - (i : ℤ)) daily := ⟨hdt ▸ hd.1, hdt ▸ hv⟩
          simp only [streakLoop, claimStreakAux]
          rw [if_pos hv, if_pos hdt, if_pos hcond]
          have hmem' : ∀ x : ℤ, x ∈ rest ↔
              (hasKey x daily ∧ x ≤ today - ((i + 1 : ℕ) : ℤ)) := by
            intro x
            constructor
            · intro hx
              have hxR := (hmem x).1 (List.mem_cons_of_mem d hx)
              refine ⟨hxR.1, ?_⟩
              have hxd : x < d := hrest_lt x hx
              push_cast
              omega
            · rintro ⟨hk, hle⟩
              have hle2 : x ≤ today - (i : ℤ) := by push_cast at hle ⊢; omega
              rcases List.mem_cons.1 ((hmem x).2 ⟨hk, hle2⟩) with h1 | h2
              · exfalso
                rw [h1, hdt] at hle
                push_cast at hle
                omega
              · exact h2
          have hlen' : rest.length ≤ f := by
            simp only [List.length_cons] at hlen
            omega
          rw [ih (i + 1) f (List.pairwise_cons.1 hpw).2 hmem' hlen']
          have harg : today - ((i + 1 : ℕ) : ℤ) = today - (i : ℤ) - 1 := by
            push_cast; ring
          rw [harg]
        · simp only [streakLoop, claimStreakAux]
          rw [if_pos hv, if_neg hdt, if_neg]
          rintro ⟨hk, _⟩
          rcases List.mem_cons.1 ((hmem _).2 ⟨hk, le_refl _⟩) with h1 | h2
          · exact hdt h1.symm
          · have h3 := hrest_lt _ h2
            have h4 := hd.2
            omega
      · simp only [streakLoop, claimStreakAux]
        rw [if_neg hv, if_neg]
        rintro ⟨hk, hv2⟩
        rcases List.mem_cons.1 ((hmem _).2 ⟨hk, le_refl _⟩) with h1 | h2
        · exact hv (h1 ▸ hv2)
        · have h3 := hrest_lt _ h2
          have h4 := hd.2
          omega

/-- C5 (amended): for every daily-time map none of whose keys lies after
today, `get_streak` equals the specification's backward walk from today
(counting consecutive present days with positive value, stopping at the
first missing or non-positive one); and on `{today: 5, yesterday: 3,
day-2: 0}` it returns 2. With a future-dated key present the two
disagree (see the counterexample). -/
theorem get_streak_eq_claimStreak (daily : List (ℤ × ℚ)) (today : ℤ)
    (hnd : (daily.map Prod.fst).Nodup)
    (hle : ∀ k ∈ daily.map Prod.fst, k ≤ today) :
    get_streak daily today = claimStreak daily today ∧
      get_streak [((10 : ℤ), (5 : ℚ)), (9, 3), (8, 0)] 10 = 2 := by
  refine ⟨?_, by decide⟩
  by_cases hemp : (daily.map Prod.fst).insertionSort (· ≤ ·) = []
  · have hkeysnil : daily.map Prod.fst = [] := by
      have hperm := List.perm_insertionSort (· ≤ ·) (daily.map Prod.fst)
      rw [hemp] at hperm
      exact (hperm.symm).eq_nil
    have hdaily : daily = [] := List.map_eq_nil_iff.1 hkeysnil
    subst hdaily
    simp [get_streak, claimStreak, claimStreakAux]
  · have hperm := List.perm_insertionSort (· ≤ ·) (daily.map Prod.fst)
    have hpw : (((daily.map Prod.fst).insertionSort (· ≤ ·)).reverse).Pairwise
        (fun a b => b < a) := by
      have hsorted := List.sorted_insertionSort (· ≤ ·) (daily.map Prod.fst)
      have hnodup : ((daily.map Prod.fst).insertionSort (· ≤ ·)).Nodup :=
        hperm.nodup_iff.2 hnd
      exact List.pairwise_reverse.2 (hsorted.lt_of_le hnodup)
    have hmem : ∀ x : ℤ,
        x ∈ ((daily.map Prod.fst).insertionSort (· ≤ ·)).reverse ↔
          (hasKey x daily ∧ x ≤ today - ((0 : ℕ) : ℤ)) := by
      intro x
      rw [List.mem_reverse, hperm.mem_iff]
      constructor
      · intro hx
        exact ⟨hx, by simpa using hle x hx⟩
      · rintro ⟨hk, _⟩
        exact hk
    have hlen : (((daily.map Prod.fst).insertionSort (· ≤ ·)).reverse).length ≤
        daily.length := by
      rw [List.length_reverse, hperm.length_eq, List.length_map]
    have key := streakLoop_eq_claimAux daily today
      (((daily.map Prod.fst).insertionSort (· ≤ ·)).reverse) 0 daily.length
      hpw hmem hlen
    simp only [get_streak]
    rw [if_neg hemp, key]
    simp only [claimStreak]
    congr 1
    push_cast
    ring

/-- Witness for the amended C5 at the map `{today: 5, yesterday: 3,
day-2: 0}` with `today = 10`. -/
theorem get_streak_eq_claimStreak_witness :
    ([((10 : ℤ), (5 : ℚ)), (9, 3), (8, 0)].map Prod.fst).Nodup ∧
      (∀ k ∈ [((10 : ℤ), (5 : ℚ)), (9, 3), (8, 0)].map Prod.fst, k ≤ (10 : ℤ)) ∧
      (get_streak [((10 : ℤ), (5 : ℚ)), (9, 3), (8, 0)] 10 =
          claimStreak [((10 : ℤ), (5 : ℚ)), (9, 3), (8, 0)] 10 ∧
        get_streak [((10 : ℤ), (5 : ℚ)), (9, 3), (8, 0)] 10 = 2) :=
  ⟨by decide, by decide,
    get_streak_eq_claimStreak [((10 : ℤ), (5 : ℚ)), (9, 3), (8, 0)] 10
      (by decide) (by decide)⟩

/-- C5, counterexample: on the map `{today: 5, tomorrow: 1}` the
implementation walks from the largest key (tomorrow), fails its date
check immediately and returns 0, while the claimed backward walk from
today counts 1. -/
theorem get_streak_future_key_disagrees :
    get_streak [((0 : ℤ), (5 : ℚ)), (1, 1)] 0 = 0 ∧
      claimStreak [((0 : ℤ), (5 : ℚ)), (1, 1)] 0 = 1 := by
  decide

/-- Peeling one month off the days-before-month table. -/
theorem daysBeforeMonth_succ (y m : ℕ) (h : 1 ≤ m) :
    daysBeforeMonth y (m + 1) = daysBeforeMonth y m + daysInMonth y m := by
  unfold daysBeforeMonth
  have h1 : m + 1 - 1 = (m - 1) + 1 := by omega
  have h2 : m - 1 + 1 = m := by omega
  rw [h1, List.range_succ]
  simp [h2]

/-- Rolling within a year: the first day of month `m + 1` is one past the
last day of month `m`. -/
theorem toOrdinal_next_month (y m : ℕ) (h : 1 ≤ m) :
    toOrdinal y (m + 1) 1 = toOrdinal y m (daysInMonth y m) + 1 := by
  unfold toOrdinal
  rw [daysBeforeMonth_succ y m h]
  push_cast
  ring

/-- The day count of January through November. -/
theorem daysBeforeMonth_twelve (y : ℕ) :
    daysBeforeMonth y 12 = 334 + (if isLeap y then 1 else 0) := by
  have hr : List.range 11 = [0, 1, 2, 3, 4, 5, 6, 7, 8, 9, 10] := rfl
  cases h : isLeap y <;>
    · unfold daysBeforeMonth
      norm_num [hr, daysInMonth, h]

/-- The leap-year test, stated with divisibility. -/
theorem isLeap_spec (y : ℕ) :
    isLeap y = true ↔ ((4 ∣ y ∧ ¬ 100 ∣ y) ∨ 400 ∣ y) := by
  simp [isLeap, Nat.dvd_iff_mod_eq_zero]

/-- Rolling a year: the proleptic day count grows by 365 plus the leap
day. -/
theorem daysBeforeYear_succ (y : ℕ) (hy : 1 ≤ y) :
    daysBeforeYear (y + 1) = daysBeforeYear y + 365 + (if isLeap y then 1 else 0) := by
  unfold daysBeforeYear
  have h4 : y / 4 = (y - 1) / 4 + (if 4 ∣ y then 1 else 0) := by
    have h := Nat.succ_div (y - 1) 4
    rwa [Nat.sub_add_cancel hy] at h
  have h100 : y / 100 = (y - 1) / 100 + (if 100 ∣ y then 1 else 0) := by
    have h := Nat.succ_div (y - 1) 100
    rwa [Nat.sub_add_cancel hy] at h
  have h400 : y / 400 = (y - 1) / 400 + (if 400 ∣ y then 1 else 0) := by
    have h := Nat.succ_div (y - 1) 400
    rwa [Nat.sub_add_cancel hy] at h
  simp only [Nat.add_sub_cancel]
  rw [h4, h100, h400]
  by_cases d4 : 4 ∣ y
  · by_cases d100 : 100 ∣ y
    · by_cases d400 : 400 ∣ y
      · have hl : isLeap y = true := (isLeap_spec y).2 (Or.inr d400)
        simp only [d4, d100, d400, hl, if_true]
        push_cast
        omega
      · have hl : isLeap y = false := by
          rw [← Bool.not_eq_true]
          intro hc
          rcases (isLeap_spec y).1 hc with ⟨_, hn⟩ | h4c
          · exact hn d100
          · exact d400 h4c
        simp only [d4, d100, d400, hl, if_true, if_false]
        push_cast
        omega
    · have h400n : ¬ 400 ∣ y := fun hc => d100 (dvd_trans ⟨4, rfl⟩ hc)
      have hl : isLeap y = true := (isLeap_spec y).2 (Or.inl ⟨d4, d100⟩)
      simp only [d4, d100, h400n, hl, if_true, if_false]
      push_cast
      omega
  · have h100n : ¬ 100 ∣ y := fun hc => d4 (dvd_trans ⟨25, rfl⟩ hc)
    have h400n : ¬ 400 ∣ y := fun hc => d4 (dvd_trans ⟨100, rfl⟩ hc)
    have hl : isLeap y = false := by
      rw [← Bool.not_eq_true]
      intro hc
      rcases (isLeap_spec y).1 hc with ⟨h4c, _⟩ | h4c
      · exact d4 h4c
      · exact h400n h4c
    simp only [d4, h100n, h400n, hl, if_false]
    push_cast
    omega

/-- Rolling December into January: January 1 of year `y + 1` is one past
December 31 of year `y`. -/
theorem toOrdinal_january (y : ℕ) (hy : 1 ≤ y) :
    toOrdinal (y + 1) 1 1 = toOrdinal y 12 31 + 1 := by
  unfold toOrdinal
  rw [daysBeforeYear_succ y hy, daysBeforeMonth_twelve]
  have h1 : daysBeforeMonth (y + 1) 1 = 0 := rfl
  rw [h1]
  cases h : isLeap y <;> simp [h] <;> push_cast <;> ring

/-- C8: `get_remaining_month` returns the non-negative whole seconds
from `now` to the last instant of the current reference-timezone month
(its last day at `23:59:59.999999`), rolling December into January of
the next year; called at `2024-12-31T23:59:50` it returns 9. -/
theorem remaining_month_correct (now : DateTime) (hm1 : 1 ≤ now.month)
    (hm2 : now.month ≤ 12) (hy : 1 ≤ now.year) :
    get_remaining_month now = specRemainingMonth now ∧
      get_remaining_month ⟨2024, 12, 31, 23, 59, 50, 0⟩ = 9 := by
  refine ⟨?_, by decide⟩
  unfold get_remaining_month specRemainingMonth
  by_cases h12 : now.month = 12
  · rw [if_pos h12]
    have hdim : daysInMonth now.year 12 = 31 := by norm_num [daysInMonth]
    have hnum : toMicro ⟨now.year + 1, 1, 1, 0, 0, 0, 0⟩ - 1 = toMicro (monthEnd now) := by
      unfold monthEnd toMicro
      simp only [h12, hdim]
      rw [toOrdinal_january now.year hy]
      push_cast
      ring
    dsimp only
    rw [hnum]
  · rw [if_neg h12]
    have hnum : toMicro ⟨now.year, now.month + 1, 1, 0, 0, 0, 0⟩ - 1 = toMicro (monthEnd now) := by
      unfold monthEnd toMicro
      rw [toOrdinal_next_month now.year now.month hm1]
      push_cast
      ring
    dsimp only
    rw [hnum]

/-- Witness for C8 at `2024-12-31T23:59:50` in the reference timezone. -/
theorem remaining_month_correct_witness :
    (1 ≤ (12 : ℕ) ∧ (12 : ℕ) ≤ 12 ∧ 1 ≤ (2024 : ℕ)) ∧
      (get_remaining_month ⟨2024, 12, 31, 23, 59, 50, 0⟩ =
          specRemainingMonth ⟨2024, 12, 31, 23, 59, 50, 0⟩ ∧
        get_remaining_month ⟨2024, 12, 31, 23, 59, 50, 0⟩ = 9) :=
  ⟨by decide,
    remaining_month_correct ⟨2024, 12, 31, 23, 59, 50, 0⟩ (by decide) (by decide)
      (by decide)⟩

end TimeTracker
